import Mathlib

/-!
Shallow embedding of the braingames repository's trial-generation, scoring
and game-state logic, with theorems checking the specification's claims.

Each definition mirrors one function or handler of the TypeScript source;
JavaScript numbers are modelled as `ℚ` (exact arithmetic on the small
integers and ratios that occur here), `Math.random()` draws are modelled as
oracle functions supplied as explicit arguments, and nullable values as
`Option`.
-/

namespace BrainGames

/-! ### List swap and Fisher-Yates shuffle

Mirrors the in-place swap `[a[i], a[j]] = [a[j], a[i]]` and the shuffle loop
`for (let i = len-1; i > 0; i--)` used by GoNoGo.tsx and FlankerTask.tsx.
The random index `j = Math.floor(Math.random() * (i + 1))` is abstracted as
an oracle `choose : Nat → Nat` giving the index chosen at each `i`. -/

def listSwap {α : Type} (l : List α) (i j : Nat) : List α :=
  match l[i]?, l[j]? with
  | some a, some b => (l.set i b).set j a
  | _, _ => l

def fyAux {α : Type} (choose : Nat → Nat) : List α → Nat → List α
  | l, 0 => l
  | l, i + 1 => fyAux choose (listSwap l (i + 1) (choose (i + 1))) i

def fisherYates {α : Type} (l : List α) (choose : Nat → Nat) : List α :=
  fyAux choose l (l.length - 1)

theorem coe_set_add {α : Type} (l : List α) :
    ∀ (i : Nat) (a b : α), l[i]? = some a →
      ((l.set i b : List α) : Multiset α) + {a} = (l : Multiset α) + {b} := by
  induction l with
  | nil => intro i a b h; simp at h
  | cons x xs ih =>
    intro i a b h
    cases i with
    | zero =>
      simp only [List.getElem?_cons_zero, Option.some.injEq] at h
      subst h
      simp only [List.set, ← Multiset.cons_coe, ← Multiset.singleton_add]
      abel
    | succ n =>
      simp only [List.getElem?_cons_succ] at h
      have hx := ih n a b h
      simp only [List.set, ← Multiset.cons_coe, Multiset.cons_add]
      rw [hx]

theorem listSwap_coe {α : Type} (l : List α) (i j : Nat) :
    ((listSwap l i j : List α) : Multiset α) = (l : Multiset α) := by
  unfold listSwap
  cases h1 : l[i]? with
  | none => simp
  | some a =>
    cases h2 : l[j]? with
    | none => simp
    | some b =>
      simp only []
      have hi : i < l.length := by
        by_contra hlt
        rw [List.getElem?_eq_none (by omega)] at h1
        exact Option.noConfusion h1
      have h2' : (l.set i b)[j]? = some b := by
        by_cases hij : i = j
        · subst hij
          rw [h1] at h2
          simp only [Option.some.injEq] at h2
          subst h2
          simp [List.getElem?_set_self hi]
        · rw [List.getElem?_set_ne (by omega)]
          exact h2
      have e1 := coe_set_add l i a b h1
      have e2 := coe_set_add (l.set i b) j b a h2'
      have : ((((l.set i b).set j a : List α)) : Multiset α) + {b} =
          (l : Multiset α) + {b} := by
        rw [e2, e1]
      exact add_right_cancel this

theorem fyAux_coe {α : Type} (choose : Nat → Nat) :
    ∀ (i : Nat) (l : List α), ((fyAux choose l i : List α) : Multiset α) = l := by
  intro i
  induction i with
  | zero => intro l; rfl
  | succ n ih =>
    intro l
    rw [fyAux, ih, listSwap_coe]

theorem fisherYates_coe {α : Type} (l : List α) (choose : Nat → Nat) :
    ((fisherYates l choose : List α) : Multiset α) = l :=
  fyAux_coe choose (l.length - 1) l

theorem set_getElem_self {α : Type} (l : List α) :
    ∀ (i : Nat) (a : α), l[i]? = some a → l.set i a = l := by
  induction l with
  | nil => intro i a h; simp at h
  | cons x xs ih =>
    intro i a h
    cases i with
    | zero =>
      simp only [List.getElem?_cons_zero, Option.some.injEq] at h
      subst h
      rfl
    | succ n =>
      simp only [List.getElem?_cons_succ] at h
      simp [List.set, ih n a h]

theorem listSwap_self {α : Type} (l : List α) (i : Nat) : listSwap l i i = l := by
  unfold listSwap
  cases h : l[i]? with
  | none => rfl
  | some a =>
    simp only []
    rw [set_getElem_self l i a h, set_getElem_self l i a h]

theorem fyAux_id {α : Type} : ∀ (k : Nat) (l : List α),
    fyAux (fun i => i) l k = l := by
  intro k
  induction k with
  | zero => intro l; rfl
  | succ n ih =>
    intro l
    rw [fyAux, listSwap_self]
    exact ih l

theorem fisherYates_perm {α : Type} (l : List α) (choose : Nat → Nat) :
    (fisherYates l choose).Perm l :=
  Multiset.coe_eq_coe.mp (fisherYates_coe l choose)

theorem fisherYates_countP {α : Type} (l : List α) (choose : Nat → Nat)
    (p : α → Bool) : (fisherYates l choose).countP p = l.countP p :=
  (fisherYates_perm l choose).countP_eq p

theorem fisherYates_length {α : Type} (l : List α) (choose : Nat → Nat) :
    (fisherYates l choose).length = l.length :=
  (fisherYates_perm l choose).length_eq

/-! ### Go/No-Go trial generation (GoNoGo.tsx, `generateTrials`) -/

inductive TrialType where
  | go
  | nogo
deriving DecidableEq

inductive GNShape where
  | circle
  | square
deriving DecidableEq

structure GNTrial where
  type : TrialType
  shape : GNShape
deriving DecidableEq

def GN_TOTAL_TRIALS : Nat := 30

def GO_RATIO : ℚ := 7 / 10

def gnGoCount : Nat := Int.toNat ⌊(GN_TOTAL_TRIALS : ℚ) * GO_RATIO⌋

def gnNogoCount : Nat := GN_TOTAL_TRIALS - gnGoCount

def gnBaseTrials : List GNTrial :=
  List.replicate gnGoCount ⟨TrialType.go, GNShape.circle⟩ ++
    List.replicate gnNogoCount ⟨TrialType.nogo, GNShape.square⟩

def gnGenerateTrials (choose : Nat → Nat) : List GNTrial :=
  fisherYates gnBaseTrials choose

/-! ### Go/No-Go trial results and scoring (GoNoGo.tsx, `calculateStats`) -/

structure GNResult where
  trial : GNTrial
  responded : Bool
  correct : Bool
  responseTime : Option ℚ
deriving DecidableEq

def gnOverallAccuracy (results : List GNResult) : ℚ :=
  (((results.filter fun r => r.correct).length : ℚ) / (results.length : ℚ)) * 100

/-! ### Flanker task (FlankerTask.tsx) -/

inductive FlankerType where
  | congruent
  | incongruent
  | neutral
deriving DecidableEq

inductive Direction where
  | left
  | right
deriving DecidableEq

structure FlankerTrial where
  arrows : String
  targetDirection : Direction
  type : FlankerType
deriving DecidableEq

structure FlankerResult where
  trial : FlankerTrial
  response : Direction
  correct : Bool
  responseTime : ℚ
deriving DecidableEq

def flankerAccuracy (results : List FlankerResult) : ℚ :=
  (((results.filter fun r => r.correct).length : ℚ) / (results.length : ℚ)) * 100

def flankerCongruentRT (results : List FlankerResult) : ℚ :=
  let congruentTrials := results.filter fun r => r.trial.type = FlankerType.congruent
  if 0 < congruentTrials.length then
    (congruentTrials.map fun r => r.responseTime).sum / (congruentTrials.length : ℚ)
  else 0

def flankerIncongruentRT (results : List FlankerResult) : ℚ :=
  let incongruentTrials := results.filter fun r => r.trial.type = FlankerType.incongruent
  if 0 < incongruentTrials.length then
    (incongruentTrials.map fun r => r.responseTime).sum / (incongruentTrials.length : ℚ)
  else 0

def flankerEffect (results : List FlankerResult) : ℚ :=
  flankerIncongruentRT results - flankerCongruentRT results

/-! ### Stroop task (StroopTask.tsx) -/

structure StroopTrial where
  word : String
  backgroundColor : String
  backgroundColorName : String
  isMatch : Bool
deriving DecidableEq

structure StroopResult where
  trial : StroopTrial
  response : Bool
  correct : Bool
  responseTime : ℚ
deriving DecidableEq

def stroopAccuracy (results : List StroopResult) : ℚ :=
  (((results.filter fun r => r.correct).length : ℚ) / (results.length : ℚ)) * 100

/-! ### Task Switching (TaskSwitching.tsx, `calculateStats`) -/

inductive TaskType where
  | number
  | letter
deriving DecidableEq

structure TSTrial where
  number : Nat
  letter : Char
  task : TaskType
  isSwitch : Bool
deriving DecidableEq

structure TSResult where
  trial : TSTrial
  response : String
  correct : Bool
  responseTime : ℚ
deriving DecidableEq

def tsSwitchRT (results : List TSResult) : ℚ :=
  let switchTrials := results.filter fun r => r.trial.isSwitch
  if 0 < switchTrials.length then
    (switchTrials.map fun r => r.responseTime).sum / (switchTrials.length : ℚ)
  else 0

def tsRepeatRT (results : List TSResult) : ℚ :=
  let repeatTrials := results.filter fun r => !r.trial.isSwitch
  if 0 < repeatTrials.length then
    (repeatTrials.map fun r => r.responseTime).sum / (repeatTrials.length : ℚ)
  else 0

def tsSwitchCost (results : List TSResult) : ℚ :=
  tsSwitchRT results - tsRepeatRT results

/-- The arithmetic mean, as the specification words it: sum divided by count. -/
def mean (l : List ℚ) : ℚ := l.sum / (l.length : ℚ)

/-! ### UFOV staircase (UFOV.tsx, `handleSubmitResponse`) -/

inductive CenterShape where
  | car
  | truck
deriving DecidableEq

structure UFOVTrial where
  centerShape : CenterShape
  peripheralPosition : Nat
  displayTime : ℚ
deriving DecidableEq

structure UFOVResult where
  trial : UFOVTrial
  centerResponse : CenterShape
  peripheralResponse : Nat
  centerCorrect : Bool
  peripheralCorrect : Bool
deriving DecidableEq

inductive UFOVPhase where
  | instructions
  | countdown
  | fixation
  | stimulus
  | mask
  | response
  | feedback
  | results
deriving DecidableEq

structure UFOVState where
  phase : UFOVPhase
  countdown : Nat
  currentTrial : Nat
  trial : Option UFOVTrial
  results : List UFOVResult
  centerResponse : Option CenterShape
  peripheralResponse : Option Nat
  feedback : Option (Bool × Bool)
  displayTime : ℚ
deriving DecidableEq

def UFOV_INITIAL_DISPLAY_TIME : ℚ := 500

def ufovSubmit (s : UFOVState) : UFOVState :=
  match s.centerResponse, s.peripheralResponse, s.trial with
  | some cr, some pr, some trial =>
    let centerCorrect : Bool := decide (cr = trial.centerShape)
    let peripheralCorrect : Bool := decide (pr = trial.peripheralPosition)
    { s with
      results := s.results ++ [⟨trial, cr, pr, centerCorrect, peripheralCorrect⟩],
      feedback := some (centerCorrect, peripheralCorrect),
      displayTime :=
        if centerCorrect && peripheralCorrect then max (s.displayTime - 50) 50
        else min (s.displayTime + 50) 500,
      phase := UFOVPhase.feedback }
  | _, _, _ => s

/-- The staircase update rule extracted from `handleSubmitResponse`. -/
def ufovAdjust (prev : ℚ) (success : Bool) : ℚ :=
  if success then max (prev - 50) 50 else min (prev + 50) 500

/-! ### N-Back sequence generation (NBack.tsx, `generateSequence`) -/

def NB_LETTERS : List Char :=
  ['B', 'C', 'D', 'F', 'G', 'H', 'J', 'K', 'L', 'M',
   'N', 'P', 'Q', 'R', 'S', 'T', 'V', 'W', 'X', 'Z']

def NB_TOTAL_TRIALS : Nat := 25

def NB_TARGET_RATIO : ℚ := 3 / 10

def nbTargetCount : Nat := Int.toNat ⌊(NB_TOTAL_TRIALS : ℚ) * NB_TARGET_RATIO⌋

def nbLetterAt (j : Nat) : Char := NB_LETTERS.getD (j % NB_LETTERS.length) 'B'

/-- The do-while retry loop of `generateSequence`: redraw until the letter
differs from the one `n` positions back. The source diverges on a draw
stream that never yields a different letter; bounded retries differ from it
only on such never-returning runs. -/
def nbRetry (bad : Char) (draw : Nat → Nat) : Nat → Nat → Char
  | k, 0 => nbLetterAt (draw k)
  | k, fuel + 1 =>
    if nbLetterAt (draw k) = bad then nbRetry bad draw (k + 1) fuel
    else nbLetterAt (draw k)

def nbGo (n : Nat) (branch : Nat → Bool) (draw : Nat → Nat → Nat) :
    Nat → Nat → List Char → Nat → List Char
  | _, 0, seq, _ => seq
  | i, rem + 1, seq, tgts =>
    if n ≤ i ∧ tgts < nbTargetCount ∧ branch i = true then
      nbGo n branch draw (i + 1) rem (seq ++ [seq.getD (i - n) 'B']) (tgts + 1)
    else
      let c := if n ≤ i then nbRetry (seq.getD (i - n) 'B') (draw i) 0 NB_LETTERS.length
               else nbLetterAt (draw i 0)
      nbGo n branch draw (i + 1) rem (seq ++ [c]) tgts

def nbGenerateSequence (n : Nat) (branch : Nat → Bool) (draw : Nat → Nat → Nat) :
    List Char :=
  nbGo n branch draw 0 NB_TOTAL_TRIALS [] 0

/-- Target test from `handleResponse` and the stimulus-timeout effect:
`currentIndex >= nLevel && sequence[currentIndex] === sequence[currentIndex - nLevel]`.
Comparing the two lookups as `Option`s mirrors the JavaScript `===` on
possibly-undefined array reads. -/
def nbIsTarget (n : Nat) (seq : List Char) (i : Nat) : Bool :=
  decide (n ≤ i) && (seq[i]? == seq[i - n]?)

/-! ### Go/No-Go game state machine (GoNoGo.tsx component state and effects)

One field per `useState` hook; each timer effect and the response callback
becomes one event. Timer delays and `Math.random` inter-trial intervals
affect only when an event fires, not what it does, so events carry at most
the current clock value `now` (for `Date.now()`). -/

inductive GNPhase where
  | instructions
  | countdown
  | playing
  | feedback
  | results
deriving DecidableEq

inductive GNFeedback where
  | correct
  | incorrect
deriving DecidableEq

structure GNState where
  phase : GNPhase
  countdown : Nat
  trials : List GNTrial
  currentTrial : Nat
  trialStart : ℚ
  results : List GNResult
  feedback : Option GNFeedback
  showFixation : Bool
  showStimulus : Bool
  responded : Bool
deriving DecidableEq

def gnInit : GNState :=
  { phase := GNPhase.instructions, countdown := 3, trials := [], currentTrial := 0,
    trialStart := 0, results := [], feedback := none, showFixation := false,
    showStimulus := false, responded := false }

def gnStartGame (choose : Nat → Nat) (s : GNState) : GNState :=
  { s with
    trials := gnGenerateTrials choose, phase := GNPhase.countdown,
    countdown := 3 }

def gnCountdownTick (s : GNState) : GNState :=
  if s.phase = GNPhase.countdown ∧ 0 < s.countdown then
    { s with countdown := s.countdown - 1 }
  else s

def gnBeginPlaying (s : GNState) : GNState :=
  if s.phase = GNPhase.countdown ∧ s.countdown = 0 then
    { s with
      phase := GNPhase.playing, currentTrial := 0, results := [],
      showFixation := true, responded := false }
  else s

def gnFixationDone (now : ℚ) (s : GNState) : GNState :=
  if s.phase = GNPhase.playing ∧ s.showFixation then
    { s with
      showFixation := false, showStimulus := true, trialStart := now,
      responded := false }
  else s

/-- The stimulus-duration timeout effect. An out-of-range `trials[currentTrial]`
would crash the source (`trial.type` on `undefined`); that read is modelled as
leaving the state unchanged. -/
def gnStimulusTimeout (s : GNState) : GNState :=
  if s.phase = GNPhase.playing ∧ s.showStimulus = true ∧ s.responded = false then
    match s.trials[s.currentTrial]? with
    | some trial =>
      let correct : Bool := decide (trial.type = TrialType.nogo)
      { s with
        results := s.results ++ [⟨trial, false, correct, none⟩],
        feedback := some (if correct then GNFeedback.correct else GNFeedback.incorrect),
        showStimulus := false,
        phase := GNPhase.feedback }
    | none => s
  else s

def gnHandleResponse (now : ℚ) (s : GNState) : GNState :=
  if s.phase ≠ GNPhase.playing ∨ s.showStimulus = false ∨ s.responded = true then s
  else
    match s.trials[s.currentTrial]? with
    | some trial =>
      let correct : Bool := decide (trial.type = TrialType.go)
      { s with
        responded := true,
        results := s.results ++ [⟨trial, true, correct, some (now - s.trialStart)⟩],
        feedback := some (if correct then GNFeedback.correct else GNFeedback.incorrect),
        showStimulus := false,
        phase := GNPhase.feedback }
    | none => s

def gnFeedbackDone (s : GNState) : GNState :=
  if s.phase = GNPhase.feedback then
    if GN_TOTAL_TRIALS ≤ s.currentTrial + 1 then
      { s with feedback := none, phase := GNPhase.results }
    else
      { s with
        feedback := none, currentTrial := s.currentTrial + 1,
        showFixation := true, phase := GNPhase.playing }
  else s

inductive GNEvent where
  | start (choose : Nat → Nat)
  | countdownTick
  | beginPlaying
  | fixationDone (now : ℚ)
  | stimulusTimeout
  | respond (now : ℚ)
  | feedbackDone

def gnStep (s : GNState) : GNEvent → GNState
  | GNEvent.start choose => gnStartGame choose s
  | GNEvent.countdownTick => gnCountdownTick s
  | GNEvent.beginPlaying => gnBeginPlaying s
  | GNEvent.fixationDone now => gnFixationDone now s
  | GNEvent.stimulusTimeout => gnStimulusTimeout s
  | GNEvent.respond now => gnHandleResponse now s
  | GNEvent.feedbackDone => gnFeedbackDone s

def gnRun (events : List GNEvent) : GNState := events.foldl gnStep gnInit

/-! ### Stroop response handler (StroopTask.tsx, `handleResponse`) -/

inductive SpeedLevel where
  | slow
  | normal
  | fast
deriving DecidableEq

inductive StroopPhase where
  | instructions
  | countdown
  | playing
  | feedback
  | results
deriving DecidableEq

inductive StroopFeedback where
  | correct
  | incorrect
  | timeout
deriving DecidableEq

structure StroopState where
  phase : StroopPhase
  speedLevel : SpeedLevel
  countdown : Nat
  currentTrial : Nat
  trial : Option StroopTrial
  trialStart : ℚ
  timeLeft : ℚ
  results : List StroopResult
  feedback : Option StroopFeedback
deriving DecidableEq

def stroopHandleResponse (userSaysMatch : Bool) (now : ℚ) (s : StroopState) :
    StroopState :=
  match s.trial with
  | none => s
  | some trial =>
    if s.phase ≠ StroopPhase.playing then s
    else
      let correct : Bool := userSaysMatch == trial.isMatch
      { s with
        results := s.results ++ [⟨trial, userSaysMatch, correct, now - s.trialStart⟩],
        feedback := some (if correct then StroopFeedback.correct
          else StroopFeedback.incorrect),
        phase := StroopPhase.feedback }

/-! ### Flanker response handler (FlankerTask.tsx, `handleResponse`) -/

inductive FlankerPhase where
  | instructions
  | countdown
  | playing
  | feedback
  | results
deriving DecidableEq

inductive FlankerFeedback where
  | correct
  | incorrect
deriving DecidableEq

structure FlankerState where
  phase : FlankerPhase
  countdown : Nat
  trials : List FlankerTrial
  currentTrial : Nat
  trialStart : ℚ
  results : List FlankerResult
  feedback : Option FlankerFeedback
  showFixation : Bool
deriving DecidableEq

def flankerHandleResponse (response : Direction) (now : ℚ) (s : FlankerState) :
    FlankerState :=
  if s.phase ≠ FlankerPhase.playing ∨ s.showFixation = true then s
  else
    match s.trials[s.currentTrial]? with
    | none => s
    | some trial =>
      let correct : Bool := decide (response = trial.targetDirection)
      { s with
        results := s.results ++ [⟨trial, response, correct, now - s.trialStart⟩],
        feedback := some (if correct then FlankerFeedback.correct
          else FlankerFeedback.incorrect),
        phase := FlankerPhase.feedback }

/-! ### Application routes (App.tsx) and GamePage (GamePage.tsx, games.ts)

`App` registers the marketplace root and one exact path per game, with no
catch-all route; under React Router an unmatched path renders no element,
modelled as `none`. `GamePage` — not referenced by any route in `App` —
looks its `gameId` parameter up in the catalog of `games.ts` (reduced here
to the ids, the only field the lookup consults) and falls back to a
"Game Not Found" view. -/

inductive AppView where
  | marketplace
  | stroopTask
  | flankerTask
  | goNoGo
  | nBack
  | dualNBack
  | corsiBlocks
  | operationSpan
  | taskSwitching
  | trailMaking
  | ufov
  | ravensMatrices
  | towerOfHanoi
deriving DecidableEq

def appRoutes : List (String × AppView) :=
  [("/", AppView.marketplace),
   ("/games/stroop-task", AppView.stroopTask),
   ("/games/flanker-task", AppView.flankerTask),
   ("/games/go-no-go", AppView.goNoGo),
   ("/games/n-back", AppView.nBack),
   ("/games/dual-n-back", AppView.dualNBack),
   ("/games/corsi-blocks", AppView.corsiBlocks),
   ("/games/operation-span", AppView.operationSpan),
   ("/games/task-switching", AppView.taskSwitching),
   ("/games/trail-making", AppView.trailMaking),
   ("/games/ufov", AppView.ufov),
   ("/games/ravens-matrices", AppView.ravensMatrices),
   ("/games/tower-of-hanoi", AppView.towerOfHanoi)]

def matchRoute (path : String) : Option AppView :=
  (appRoutes.find? fun route => route.1 == path).map fun route => route.2

def gameIds : List String :=
  ["stroop-task", "flanker-task", "go-no-go", "n-back", "dual-n-back",
   "corsi-blocks", "operation-span", "task-switching", "trail-making",
   "ufov", "ravens-matrices", "tower-of-hanoi"]

inductive GamePageView where
  | notFound
  | gameDetail (gameId : String)
deriving DecidableEq

def gamePage (gameId : String) : GamePageView :=
  if gameIds.contains gameId then GamePageView.gameDetail gameId
  else GamePageView.notFound

/-! ### Tower of Hanoi (TowerOfHanoi.tsx)

The game state is modelled from the countdown-done effect onward: that
effect sets `towers := initializeTowers(numDisks)`, `moves := 0`,
`selectedTower := null` and `phase := 'playing'`, which is `hInit`.
`handleTowerClick` becomes `hClick`; a play session is a fold of clicks.

For the lower bound, configurations are abstracted to a function
`Fin n → Fin 3` sending each disk (index `d` for size `d + 1`) to its peg,
with a potential `hanoiPhi` — the number of moves a perfect solver still
needs — that any legal move decreases by at most one. -/

/-- The peg different from two given distinct pegs. -/
def thirdPeg (a b : Fin 3) : Fin 3 := ⟨(3 - a.val - b.val) % 3, by omega⟩

theorem thirdPeg_spec : ∀ a b x : Fin 3,
    a ≠ b → x ≠ a → x ≠ b → x = thirdPeg a b := by decide

theorem thirdPeg_ne : ∀ a b : Fin 3,
    a ≠ b → thirdPeg a b ≠ a ∧ thirdPeg a b ≠ b := by decide

theorem thirdPeg_comm : ∀ a b : Fin 3, thirdPeg a b = thirdPeg b a := by decide

def hanoiPhi : (n : Nat) → (Fin n → Fin 3) → Fin 3 → Nat
  | 0, _, _ => 0
  | n + 1, c, t =>
    if c (Fin.last n) = t then hanoiPhi n (fun d => c d.castSucc) t
    else 2 ^ n + hanoiPhi n (fun d => c d.castSucc) (thirdPeg (c (Fin.last n)) t)

structure HMove (n : Nat) where
  disk : Fin n
  target : Fin 3

/-- A move is legal when the disk changes peg and every smaller disk is off
both the source peg and the target peg. -/
def hmValid {n : Nat} (c : Fin n → Fin 3) (m : HMove n) : Prop :=
  m.target ≠ c m.disk ∧
  ∀ e : Fin n, e < m.disk → c e ≠ c m.disk ∧ c e ≠ m.target

def hmStep {n : Nat} (c : Fin n → Fin 3) (m : HMove n) : Fin n → Fin 3 :=
  Function.update c m.disk m.target

theorem hanoiPhi_const : ∀ (n : Nat) (c : Fin n → Fin 3) (r t : Fin 3),
    (∀ d, c d = r) → hanoiPhi n c t = if r = t then 0 else 2 ^ n - 1 := by
  intro n
  induction n with
  | zero =>
    intro c r t _
    rw [hanoiPhi]
    split <;> rfl
  | succ k ih =>
    intro c r t h
    rw [hanoiPhi, h (Fin.last k)]
    by_cases hrt : r = t
    · rw [if_pos hrt, ih _ r t (fun d => h _), if_pos hrt, if_pos hrt]
    · rw [if_neg hrt, ih _ r _ (fun d => h _), if_neg hrt,
        if_neg (fun hr => ((thirdPeg_ne r t hrt).1 hr.symm))]
      have h1 : 1 ≤ 2 ^ k := Nat.one_le_two_pow
      rw [pow_succ]
      omega

theorem hanoiPhi_step : ∀ (n : Nat) (c : Fin n → Fin 3) (m : HMove n),
    hmValid c m → ∀ t : Fin 3, hanoiPhi n c t ≤ hanoiPhi n (hmStep c m) t + 1 := by
  intro n
  induction n with
  | zero => intro c m _ t; exact m.disk.elim0
  | succ k ih =>
    intro c m hv t
    by_cases hd : m.disk = Fin.last k
    · -- the largest disk moves; all smaller disks sit on the remaining peg
      have hqp : m.target ≠ c (Fin.last k) := by rw [← hd]; exact hv.1
      have hsmall : ∀ d : Fin k,
          c d.castSucc ≠ c (Fin.last k) ∧ c d.castSucc ≠ m.target := by
        intro d
        have h2 := hv.2 d.castSucc (by rw [hd]; exact Fin.castSucc_lt_last d)
        rw [hd] at h2
        exact h2
      have hstep_last : hmStep c m (Fin.last k) = m.target := by
        rw [hmStep, ← hd]
        exact Function.update_same _ _ _
      have hstep_restr : (fun d : Fin k => hmStep c m d.castSucc) =
          (fun d : Fin k => c d.castSucc) := by
        funext d
        rw [hmStep, Function.update_noteq]
        rw [hd]
        exact (Fin.castSucc_lt_last d).ne
      rw [hanoiPhi, hanoiPhi, hstep_last, hstep_restr]
      have hr : ∀ d : Fin k, (fun d : Fin k => c d.castSucc) d =
          thirdPeg (c (Fin.last k)) m.target :=
        fun d => thirdPeg_spec _ _ _ (Ne.symm hqp) (hsmall d).1 (hsmall d).2
      have hrp : thirdPeg (c (Fin.last k)) m.target ≠ c (Fin.last k) :=
        (thirdPeg_ne _ _ (Ne.symm hqp)).1
      have hrq : thirdPeg (c (Fin.last k)) m.target ≠ m.target :=
        (thirdPeg_ne _ _ (Ne.symm hqp)).2
      have h1 : 1 ≤ 2 ^ k := Nat.one_le_two_pow
      by_cases hpt : c (Fin.last k) = t
      · have hqt : ¬(m.target = t) := fun h => hqp (h.trans hpt.symm)
        rw [if_pos hpt, if_neg hqt,
          hanoiPhi_const k _ _ t hr, if_neg (fun h => hrp (h.trans hpt.symm)),
          hanoiPhi_const k _ _ _ hr, if_pos (by rw [← hpt, thirdPeg_comm])]
        omega
      · by_cases hqt : m.target = t
        · subst hqt
          rw [if_neg hpt, if_pos rfl,
            hanoiPhi_const k _ _ _ hr, if_pos rfl,
            hanoiPhi_const k _ _ _ hr, if_neg hrq]
          omega
        · have htr : t = thirdPeg (c (Fin.last k)) m.target :=
            thirdPeg_spec _ _ t (Ne.symm hqp) (fun h => hpt h.symm)
              (fun h => hqt h.symm)
          rw [if_neg hpt, if_neg hqt,
            hanoiPhi_const k _ _ _ hr,
            if_neg (fun h => (thirdPeg_ne (c (Fin.last k)) t hpt).2
              (h.symm.trans htr.symm)),
            hanoiPhi_const k _ _ _ hr,
            if_neg (fun h => (thirdPeg_ne m.target t hqt).2
              (h.symm.trans htr.symm))]
          omega
    · -- a smaller disk moves; apply the induction hypothesis to the restriction
      have hlt : m.disk.val < k := by
        have h2 := m.disk.isLt
        rcases Nat.lt_succ_iff_lt_or_eq.mp h2 with h | h
        · exact h
        · exact absurd (Fin.ext h) hd
      have hcast : (⟨m.disk.val, hlt⟩ : Fin k).castSucc = m.disk := Fin.ext rfl
      have hvalid' : hmValid (fun d : Fin k => c d.castSucc)
          ⟨⟨m.disk.val, hlt⟩, m.target⟩ := by
        constructor
        · show m.target ≠ c (Fin.castSucc ⟨m.disk.val, hlt⟩)
          rw [hcast]
          exact hv.1
        · intro e he
          have h2 := hv.2 e.castSucc
            (by rw [← hcast]; exact Fin.castSucc_lt_castSucc_iff.mpr he)
          constructor
          · show c e.castSucc ≠ c (Fin.castSucc ⟨m.disk.val, hlt⟩)
            rw [hcast]
            exact h2.1
          · exact h2.2
      have hstep_last : hmStep c m (Fin.last k) = c (Fin.last k) := by
        rw [hmStep, Function.update_noteq (fun h => hd h.symm)]
      have hstep_restr : (fun d : Fin k => hmStep c m d.castSucc) =
          hmStep (fun d : Fin k => c d.castSucc) ⟨⟨m.disk.val, hlt⟩, m.target⟩ := by
        funext e
        show Function.update c m.disk m.target e.castSucc =
          Function.update (fun d : Fin k => c d.castSucc)
            (⟨m.disk.val, hlt⟩ : Fin k) m.target e
        by_cases hee : e = (⟨m.disk.val, hlt⟩ : Fin k)
        · subst hee
          rw [hcast, Function.update_same, Function.update_same]
        · rw [Function.update_noteq, Function.update_noteq hee]
          intro hcc
          exact hee (Fin.castSucc_injective k (by rw [hcc, hcast]))
      rw [hanoiPhi, hanoiPhi, hstep_last, hstep_restr]
      by_cases hct : c (Fin.last k) = t
      · rw [if_pos hct, if_pos hct]
        exact ih _ _ hvalid' t
      · rw [if_neg hct, if_neg hct]
        have h2 := ih _ _ hvalid' (thirdPeg (c (Fin.last k)) t)
        omega

/-- `initializeTowers` pushes disks of size `disks` down to `1`, so the left
tower holds `[n, n-1, ..., 1]` (index 0 is the bottom). -/
def descList : Nat → List Nat
  | 0 => []
  | n + 1 => (n + 1) :: descList n

inductive HPhase where
  | instructions
  | countdown
  | playing
  | results
deriving DecidableEq

structure HState where
  towers : Fin 3 → List Nat
  selected : Option (Fin 3)
  moves : Nat
  phase : HPhase

/-- The state right after the countdown effect ran `initializeTowers`,
`setMoves(0)`, `setSelectedTower(null)` and `setPhase('playing')`. -/
def hInit (n : Nat) : HState :=
  { towers := ![descList n, [], []], selected := none, moves := 0,
    phase := HPhase.playing }

/-- `handleTowerClick`. A selected tower is never empty in a reachable state
(selection requires `towers[towerIndex].length > 0`), so the source reads
`sourceTower[sourceTower.length - 1]` unconditionally; the unreachable empty
case is modelled as deselection. -/
def hClick (n : Nat) (s : HState) (i : Fin 3) : HState :=
  if s.phase ≠ HPhase.playing then s
  else
    match s.selected with
    | none =>
      if 0 < (s.towers i).length then { s with selected := some i } else s
    | some sel =>
      if sel = i then { s with selected := none }
      else
        match (s.towers sel).getLast? with
        | none => { s with selected := none }
        | some diskToMove =>
          if (s.towers i).length = 0 ∨
              diskToMove < ((s.towers i).getLast?.getD 0) then
            let newTowers : Fin 3 → List Nat :=
              Function.update (Function.update s.towers sel
                ((s.towers sel).dropLast)) i ((s.towers i) ++ [diskToMove])
            { towers := newTowers, selected := none, moves := s.moves + 1,
              phase := if (newTowers 2).length = n then HPhase.results
                else s.phase }
          else { s with selected := none }

def hRun (n : Nat) (clicks : List (Fin 3)) : HState :=
  clicks.foldl (hClick n) (hInit n)

/-- The minimum-move count `startGame` displays: `Math.pow(2, numDisks) - 1`. -/
def hanoiMinMoves (n : Nat) : Nat := 2 ^ n - 1

/-- The peg holding disk size `k` (searching pegs 0, 1, then 2, mirroring
that a disk of a legal state is on exactly one peg). -/
def findPeg (tw : Fin 3 → List Nat) (k : Nat) : Fin 3 :=
  if k ∈ tw 0 then 0 else if k ∈ tw 1 then 1 else 2

def confOf (n : Nat) (tw : Fin 3 → List Nat) : Fin n → Fin 3 :=
  fun d => findPeg tw (d.val + 1)

def towersMultiset (tw : Fin 3 → List Nat) : Multiset Nat :=
  (tw 0 : Multiset Nat) + (tw 1 : Multiset Nat) + (tw 2 : Multiset Nat)

/-- Reachable-state invariant: each tower is strictly decreasing from bottom
to top, the disks across the towers are exactly `{1, ..., n}`, the potential
plus the move counter dominates `2^n - 1`, and a finished game took at least
`2^n - 1` moves. -/
def hInvariant (n : Nat) (s : HState) : Prop :=
  (∀ p : Fin 3, List.Chain' (· > ·) (s.towers p)) ∧
  towersMultiset s.towers = (descList n : Multiset Nat) ∧
  2 ^ n - 1 ≤ hanoiPhi n (confOf n s.towers) 2 + s.moves ∧
  (s.phase = HPhase.results → 2 ^ n - 1 ≤ s.moves)

theorem mem_descList : ∀ (n k : Nat), k ∈ descList n ↔ 1 ≤ k ∧ k ≤ n := by
  intro n
  induction n with
  | zero => intro k; simp [descList]; omega
  | succ j ih =>
    intro k
    rw [descList, List.mem_cons, ih k]
    omega

theorem descList_chain : ∀ n : Nat, List.Chain' (· > ·) (descList n) := by
  intro n
  induction n with
  | zero => exact List.chain'_nil
  | succ j ih =>
    rw [descList]
    cases j with
    | zero => simp [descList]
    | succ i =>
      rw [descList]
      exact List.Chain'.cons (by omega) (by rw [← descList]; exact ih)

theorem descList_length : ∀ n : Nat, (descList n).length = n := by
  intro n
  induction n with
  | zero => rfl
  | succ j ih => rw [descList, List.length_cons, ih]

theorem descList_nodup (n : Nat) : (descList n).Nodup :=
  ((List.chain'_iff_pairwise.mp (descList_chain n)).imp fun h => Nat.ne_of_gt h)

/-- In a strictly decreasing list the last element is the minimum. -/
theorem pairwise_gt_last_min : ∀ (l : List Nat), l.Pairwise (· > ·) →
    ∀ b, l.getLast? = some b → ∀ x ∈ l, b ≤ x := by
  intro l
  induction l with
  | nil => intro _ b hb; simp at hb
  | cons a l' ih =>
    intro hp b hb x hx
    rcases List.pairwise_cons.mp hp with ⟨ha, hp'⟩
    cases hl' : l' with
    | nil =>
      subst hl'
      simp at hb hx
      omega
    | cons c l'' =>
      subst hl'
      rw [List.getLast?_cons_cons] at hb
      rcases List.mem_cons.mp hx with rfl | hx'
      · have hbmem : b ∈ c :: l'' := by
          obtain ⟨hne, heq⟩ := List.mem_getLast?_eq_getLast
            (l := c :: l'') (x := b) (by rw [Option.mem_def]; exact hb)
          rw [heq]
          exact List.getLast_mem hne
        exact Nat.le_of_lt (ha b hbmem)
      · exact ih hp' b hb x hx'

theorem mem_of_getLast?_eq {l : List Nat} {b : Nat} (hb : l.getLast? = some b) :
    b ∈ l := by
  obtain ⟨hne, heq⟩ := List.mem_getLast?_eq_getLast
    (l := l) (x := b) (by rw [Option.mem_def]; exact hb)
  rw [heq]
  exact List.getLast_mem hne

theorem dropLast_concat_of_getLast? {l : List Nat} {b : Nat}
    (hb : l.getLast? = some b) : l.dropLast ++ [b] = l :=
  List.dropLast_append_getLast? b (by rw [Option.mem_def]; exact hb)

theorem coe_dropLast_add {l : List Nat} {b : Nat} (hb : l.getLast? = some b) :
    ((l.dropLast : List Nat) : Multiset Nat) + {b} = (l : Multiset Nat) := by
  conv_rhs => rw [← dropLast_concat_of_getLast? hb]
  rw [← Multiset.coe_singleton, Multiset.coe_add]

theorem mem_dropLast_iff {l : List Nat} {b x : Nat} (hb : l.getLast? = some b)
    (hxb : x ≠ b) : x ∈ l.dropLast ↔ x ∈ l := by
  constructor
  · intro hx
    rw [← dropLast_concat_of_getLast? hb]
    exact List.mem_append_left _ hx
  · intro hx
    rw [← dropLast_concat_of_getLast? hb] at hx
    rcases List.mem_append.mp hx with h | h
    · exact h
    · simp at h
      exact absurd h hxb

theorem last_not_mem_dropLast {l : List Nat} {b : Nat}
    (hc : l.Pairwise (· > ·)) (hb : l.getLast? = some b) : b ∉ l.dropLast := by
  intro hmem
  have h2 : List.Pairwise (· > ·) (l.dropLast ++ [b]) := by
    rw [dropLast_concat_of_getLast? hb]
    exact hc
  have h3 := (List.pairwise_append.mp h2).2.2 b hmem b (List.mem_singleton_self b)
  omega

theorem count_towers (tw : Fin 3 → List Nat) (k : Nat) :
    Multiset.count k (towersMultiset tw) =
      Multiset.count k (tw 0 : Multiset Nat) +
      Multiset.count k (tw 1 : Multiset Nat) +
      Multiset.count k (tw 2 : Multiset Nat) := by
  rw [towersMultiset, Multiset.count_add, Multiset.count_add]

theorem descList_count (n k : Nat) :
    Multiset.count k ((descList n : List Nat) : Multiset Nat) =
      if k ∈ descList n then 1 else 0 := by
  by_cases hk : k ∈ descList n
  · rw [if_pos hk,
      Multiset.count_eq_one_of_mem (Multiset.coe_nodup.mpr (descList_nodup n))
        (Multiset.mem_coe.mpr hk)]
  · rw [if_neg hk,
      Multiset.count_eq_zero_of_not_mem (fun h => hk (Multiset.mem_coe.mp h))]

theorem fin3_eq (p : Fin 3) : p = 0 ∨ p = 1 ∨ p = 2 := by
  revert p; decide

theorem mem_peg_unique {n : Nat} {tw : Fin 3 → List Nat}
    (hM : towersMultiset tw = (descList n : Multiset Nat)) {k : Nat}
    {p q : Fin 3} (hp : k ∈ tw p) (hq : k ∈ tw q) : p = q := by
  by_contra hpq
  have htotal : Multiset.count k (tw 0 : Multiset Nat) +
      Multiset.count k (tw 1 : Multiset Nat) +
      Multiset.count k (tw 2 : Multiset Nat) ≤ 1 := by
    rw [← count_towers, hM, descList_count]
    split <;> omega
  have hcp : 0 < Multiset.count k (tw p : Multiset Nat) :=
    Multiset.count_pos.mpr (Multiset.mem_coe.mpr hp)
  have hcq : 0 < Multiset.count k (tw q : Multiset Nat) :=
    Multiset.count_pos.mpr (Multiset.mem_coe.mpr hq)
  rcases fin3_eq p with rfl | rfl | rfl <;> rcases fin3_eq q with rfl | rfl | rfl <;>
    first
      | exact hpq rfl
      | omega

theorem findPeg_eq_of_mem {n : Nat} {tw : Fin 3 → List Nat}
    (hM : towersMultiset tw = (descList n : Multiset Nat)) {k : Nat}
    {p : Fin 3} (hp : k ∈ tw p) : findPeg tw k = p := by
  unfold findPeg
  by_cases h0 : k ∈ tw 0
  · rw [if_pos h0]
    exact mem_peg_unique hM h0 hp
  · rw [if_neg h0]
    by_cases h1 : k ∈ tw 1
    · rw [if_pos h1]
      exact mem_peg_unique hM h1 hp
    · rw [if_neg h1]
      have v0 : p.val ≠ 0 := fun h => h0 ((Fin.ext h : p = 0) ▸ hp)
      have v1 : p.val ≠ 1 := fun h => h1 ((Fin.ext h : p = 1) ▸ hp)
      have v2 := p.isLt
      have hv : p.val = 2 := by omega
      exact Fin.ext (show (2 : Fin 3).val = p.val by rw [hv]; rfl)

theorem mem_tower_range {n : Nat} {tw : Fin 3 → List Nat}
    (hM : towersMultiset tw = (descList n : Multiset Nat)) {k : Nat}
    {p : Fin 3} (hp : k ∈ tw p) : 1 ≤ k ∧ k ≤ n := by
  have hmem : k ∈ towersMultiset tw := by
    rw [towersMultiset]
    rcases fin3_eq p with rfl | rfl | rfl
    · exact Multiset.mem_add.mpr (Or.inl (Multiset.mem_add.mpr
        (Or.inl (Multiset.mem_coe.mpr hp))))
    · exact Multiset.mem_add.mpr (Or.inl (Multiset.mem_add.mpr
        (Or.inr (Multiset.mem_coe.mpr hp))))
    · exact Multiset.mem_add.mpr (Or.inr (Multiset.mem_coe.mpr hp))
  rw [hM] at hmem
  exact (mem_descList n k).mp (Multiset.mem_coe.mp hmem)

theorem mem_peg_exists {n : Nat} {tw : Fin 3 → List Nat}
    (hM : towersMultiset tw = (descList n : Multiset Nat)) {k : Nat}
    (hk1 : 1 ≤ k) (hk2 : k ≤ n) : ∃ p : Fin 3, k ∈ tw p := by
  have hmem : k ∈ towersMultiset tw := by
    rw [hM]
    exact Multiset.mem_coe.mpr ((mem_descList n k).mpr ⟨hk1, hk2⟩)
  rw [towersMultiset] at hmem
  rcases Multiset.mem_add.mp hmem with h | h
  · rcases Multiset.mem_add.mp h with h | h
    · exact ⟨0, Multiset.mem_coe.mp h⟩
    · exact ⟨1, Multiset.mem_coe.mp h⟩
  · exact ⟨2, Multiset.mem_coe.mp h⟩

theorem towersMultiset_sum (f : Fin 3 → List Nat) :
    towersMultiset f = ∑ p : Fin 3, ((f p : List Nat) : Multiset Nat) := by
  rw [Fin.sum_univ_three, towersMultiset]

theorem update_coe_comm (g : Fin 3 → List Nat) (j : Fin 3) (L : List Nat) :
    (fun p => ((Function.update g j L p : List Nat) : Multiset Nat)) =
      Function.update (fun p => ((g p : List Nat) : Multiset Nat)) j
        ((L : List Nat) : Multiset Nat) := by
  funext p
  by_cases hpj : p = j
  · subst hpj
    rw [Function.update_same, Function.update_same]
  · rw [Function.update_noteq hpj, Function.update_noteq hpj]

theorem towersMultiset_move {tw : Fin 3 → List Nat} {sel i : Fin 3}
    (hne : sel ≠ i) {d : Nat} (hd : (tw sel).getLast? = some d) :
    towersMultiset (Function.update (Function.update tw sel
      ((tw sel).dropLast)) i ((tw i) ++ [d])) = towersMultiset tw := by
  have hsrc := coe_dropLast_add hd
  have htgt : ((tw i ++ [d] : List Nat) : Multiset Nat) =
      ((tw i : List Nat) : Multiset Nat) + {d} := by
    rw [← Multiset.coe_singleton, Multiset.coe_add]
  have hselmem : sel ∈ Finset.univ \ ({i} : Finset (Fin 3)) :=
    Finset.mem_sdiff.mpr ⟨Finset.mem_univ sel,
      fun h => hne (Finset.mem_singleton.mp h)⟩
  rw [towersMultiset_sum, towersMultiset_sum, update_coe_comm,
    update_coe_comm tw sel,
    Finset.sum_update_of_mem (Finset.mem_univ i),
    Finset.sum_update_of_mem hselmem,
    Finset.sum_eq_add_sum_diff_singleton (Finset.mem_univ i)
      (fun p => ((tw p : List Nat) : Multiset Nat)),
    Finset.sum_eq_add_sum_diff_singleton hselmem
      (fun p => ((tw p : List Nat) : Multiset Nat)),
    htgt, ← hsrc]
  abel

theorem hClick_move_invariant {n : Nat} {s : HState} {i sel : Fin 3}
    (h : hInvariant n s) (hphase : s.phase = HPhase.playing)
    (hne : sel ≠ i) {d : Nat} (hlast : (s.towers sel).getLast? = some d)
    (hcond : (s.towers i).length = 0 ∨ d < ((s.towers i).getLast?.getD 0)) :
    hInvariant n
      { towers := Function.update (Function.update s.towers sel
          ((s.towers sel).dropLast)) i ((s.towers i) ++ [d]),
        selected := none, moves := s.moves + 1,
        phase := if (Function.update (Function.update s.towers sel
            ((s.towers sel).dropLast)) i ((s.towers i) ++ [d]) 2).length = n
          then HPhase.results else s.phase } := by
  obtain ⟨hchain, hM, hphi, _⟩ := h
  have hpair : ∀ p : Fin 3, (s.towers p).Pairwise (· > ·) :=
    fun p => List.chain'_iff_pairwise.mp (hchain p)
  have hd_mem : d ∈ s.towers sel := mem_of_getLast?_eq hlast
  have hrange : 1 ≤ d ∧ d ≤ n := mem_tower_range hM hd_mem
  have hsel_min : ∀ x ∈ s.towers sel, d ≤ x :=
    pairwise_gt_last_min _ (hpair sel) d hlast
  have hsmall_tgt : ∀ x ∈ s.towers i, d < x := by
    rcases hcond with hlen | hlt
    · intro x hx
      rw [List.length_eq_zero.mp hlen] at hx
      simp at hx
    · intro x hx
      cases hgl : (s.towers i).getLast? with
      | none =>
        rw [List.getLast?_eq_none_iff] at hgl
        rw [hgl] at hx
        simp at hx
      | some top =>
        rw [hgl] at hlt
        simp only [Option.getD_some] at hlt
        have := pairwise_gt_last_min _ (hpair i) top hgl x hx
        omega
  set newTw : Fin 3 → List Nat := Function.update (Function.update s.towers sel
    ((s.towers sel).dropLast)) i ((s.towers i) ++ [d]) with hnewTw
  have hval : ∀ p : Fin 3, newTw p =
      if p = i then (s.towers i) ++ [d]
      else if p = sel then (s.towers sel).dropLast else s.towers p := by
    intro p
    rw [hnewTw]
    by_cases hpi : p = i
    · subst hpi
      rw [Function.update_same, if_pos rfl]
    · rw [Function.update_noteq hpi, if_neg hpi]
      by_cases hps : p = sel
      · subst hps
        rw [Function.update_same, if_pos rfl]
      · rw [Function.update_noteq hps, if_neg hps]
  have hchain' : ∀ p : Fin 3, List.Chain' (· > ·) (newTw p) := by
    intro p
    rw [hval p]
    split_ifs with h1 h2
    · refine List.chain'_append.mpr ⟨hchain i, List.chain'_singleton d, ?_⟩
      intro x hx y hy
      simp only [List.head?_cons, Option.mem_def, Option.some.injEq] at hy
      subst hy
      exact hsmall_tgt x (mem_of_getLast?_eq (Option.mem_def.mp hx))
    · exact (hchain sel).sublist (List.dropLast_sublist _)
    · exact hchain p
  have hM' : towersMultiset newTw = (descList n : Multiset Nat) :=
    (towersMultiset_move hne hlast).trans hM
  have hd1 : d - 1 + 1 = d := by omega
  have hdIdx : d - 1 < n := by omega
  have hcdIdx : confOf n s.towers ⟨d - 1, hdIdx⟩ = sel := by
    show findPeg s.towers (d - 1 + 1) = sel
    rw [hd1]
    exact findPeg_eq_of_mem hM hd_mem
  have hvalid : hmValid (confOf n s.towers) ⟨⟨d - 1, hdIdx⟩, i⟩ := by
    constructor
    · show i ≠ confOf n s.towers ⟨d - 1, hdIdx⟩
      rw [hcdIdx]
      exact fun hh => hne hh.symm
    · intro e he
      have hek : e.val + 1 < d := by
        have h2 : e.val < d - 1 := he
        omega
      have hek1 : 1 ≤ e.val + 1 := by omega
      have hekn : e.val + 1 ≤ n := e.isLt
      obtain ⟨p, hkp⟩ := mem_peg_exists hM hek1 hekn
      have hfp : confOf n s.towers e = p := findPeg_eq_of_mem hM hkp
      constructor
      · rw [hfp, hcdIdx]
        rintro rfl
        exact absurd (hsel_min _ hkp) (by omega)
      · rw [hfp]
        rintro rfl
        exact absurd (hsmall_tgt _ hkp) (by omega)
  have hconf' : confOf n newTw =
      hmStep (confOf n s.towers) ⟨⟨d - 1, hdIdx⟩, i⟩ := by
    funext e
    show findPeg newTw (e.val + 1) =
      Function.update (confOf n s.towers) ⟨d - 1, hdIdx⟩ i e
    by_cases hede : e = (⟨d - 1, hdIdx⟩ : Fin n)
    · subst hede
      rw [Function.update_same]
      show findPeg newTw (d - 1 + 1) = i
      rw [hd1]
      refine findPeg_eq_of_mem hM' ?_
      rw [hval i, if_pos rfl]
      exact List.mem_append_right _ (List.mem_singleton_self d)
    · rw [Function.update_noteq hede]
      have hkd : e.val + 1 ≠ d := by
        intro hh
        exact hede (Fin.ext (show e.val = d - 1 by omega))
      have hmem_iff : ∀ p : Fin 3, e.val + 1 ∈ newTw p ↔ e.val + 1 ∈ s.towers p := by
        intro p
        rw [hval p]
        split_ifs with h1 h2
        · subst h1
          simp [List.mem_append, hkd]
        · subst h2
          exact mem_dropLast_iff hlast hkd
        · exact Iff.rfl
      show (if e.val + 1 ∈ newTw 0 then (0 : Fin 3)
          else if e.val + 1 ∈ newTw 1 then 1 else 2) = confOf n s.towers e
      rw [if_congr (hmem_iff 0) rfl (if_congr (hmem_iff 1) rfl rfl)]
      rfl
  have hphi' : 2 ^ n - 1 ≤ hanoiPhi n (confOf n newTw) 2 + (s.moves + 1) := by
    have hstep := hanoiPhi_step n (confOf n s.towers) ⟨⟨d - 1, hdIdx⟩, i⟩ hvalid 2
    rw [← hconf'] at hstep
    omega
  refine ⟨hchain', hM', hphi', ?_⟩
  split
  · intro _
    next hwin =>
    have hcard : Multiset.card (towersMultiset newTw) = n := by
      rw [hM']
      rw [Multiset.coe_card, descList_length]
    rw [towersMultiset, Multiset.card_add, Multiset.card_add,
      Multiset.coe_card, Multiset.coe_card, Multiset.coe_card] at hcard
    have h0 : (newTw 0).length = 0 ∧ (newTw 1).length = 0 := by
      constructor <;> omega
    have hconf2 : ∀ e : Fin n, confOf n newTw e = 2 := by
      intro e
      show (if e.val + 1 ∈ newTw 0 then (0 : Fin 3)
        else if e.val + 1 ∈ newTw 1 then 1 else 2) = 2
      rw [if_neg, if_neg]
      · rw [List.length_eq_zero.mp h0.2]
        simp
      · rw [List.length_eq_zero.mp h0.1]
        simp
    have hzero : hanoiPhi n (confOf n newTw) 2 = 0 := by
      rw [hanoiPhi_const n _ 2 2 hconf2, if_pos rfl]
    show 2 ^ n - 1 ≤ s.moves + 1
    omega
  · intro hq
    rw [hphase] at hq
    exact absurd hq (by decide)

theorem hClick_preserves (n : Nat) (s : HState) (i : Fin 3)
    (h : hInvariant n s) : hInvariant n (hClick n s i) := by
  unfold hClick
  split
  · exact h
  next hphase =>
    have hph : s.phase = HPhase.playing := not_not.mp hphase
    split
    · split
      · exact h
      · exact h
    next sel hsel =>
      split
      · exact h
      next hne =>
        split
        · exact h
        next d hlast =>
          split
          next hcond =>
            exact hClick_move_invariant h hph hne hlast hcond
          · exact h

theorem hInit_invariant (n : Nat) : hInvariant n (hInit n) := by
  refine ⟨?_, ?_, ?_, ?_⟩
  · intro p
    rcases fin3_eq p with rfl | rfl | rfl
    · exact descList_chain n
    · exact List.chain'_nil
    · exact List.chain'_nil
  · show towersMultiset ![descList n, [], []] = (descList n : Multiset Nat)
    rw [towersMultiset]
    show (descList n : Multiset Nat) + ([] : List Nat) + ([] : List Nat) =
      (descList n : Multiset Nat)
    simp
  · have hconf : ∀ d : Fin n, confOf n (hInit n).towers d = 0 := by
      intro d
      show (if d.val + 1 ∈ descList n then (0 : Fin 3)
        else if d.val + 1 ∈ ([] : List Nat) then 1 else 2) = 0
      rw [if_pos ((mem_descList n (d.val + 1)).mpr ⟨by omega,
        by have := d.isLt; omega⟩)]
    rw [hanoiPhi_const n _ 0 2 hconf, if_neg (by decide)]
    show 2 ^ n - 1 ≤ 2 ^ n - 1 + 0
    omega
  · intro hq
    exact HPhase.noConfusion hq

theorem hRun_invariant (n : Nat) (clicks : List (Fin 3)) :
    hInvariant n (hRun n clicks) := by
  rw [hRun]
  have key : ∀ (cs : List (Fin 3)) (s : HState), hInvariant n s →
      hInvariant n (cs.foldl (hClick n) s) := by
    intro cs
    induction cs with
    | nil => intro s hs; exact hs
    | cons c cs ih =>
      intro s hs
      exact ih _ (hClick_preserves n s c hs)
  exact key clicks (hInit n) (hInit_invariant n)

theorem descList_eq_reverse_map (n : Nat) :
    descList n = ((List.range n).map fun k => k + 1).reverse := by
  induction n with
  | zero => rfl
  | succ j ih =>
    rw [descList, List.range_succ, List.map_append, List.reverse_append, ih]
    rfl

/-- C2: the Tower of Hanoi displays `2^n - 1` as the minimum-move count for
`n` disks, and every click sequence that finishes the puzzle — drives the
phase to the results screen — has a move counter of at least `2^n - 1`. -/
theorem hanoi_minimum_moves (n : Nat) (clicks : List (Fin 3))
    (hwin : (hRun n clicks).phase = HPhase.results) :
    hanoiMinMoves n = 2 ^ n - 1 ∧ 2 ^ n - 1 ≤ (hRun n clicks).moves :=
  ⟨rfl, (hRun_invariant n clicks).2.2.2 hwin⟩

theorem hanoi_minimum_moves_witness :
    hanoiMinMoves 1 = 2 ^ 1 - 1 ∧ 2 ^ 1 - 1 ≤ (hRun 1 [0, 2]).moves :=
  hanoi_minimum_moves 1 [0, 2] (by decide)

/-- C9: in every state a Tower of Hanoi session reaches, each tower is
strictly decreasing in disk size from bottom to top and the disks across
the three towers are exactly `{1, ..., numDisks}`; a click that proposes
placing a larger disk on a smaller one changes neither the towers nor the
move counter. -/
theorem hanoi_state_invariant :
    (∀ (n : Nat) (clicks : List (Fin 3)) (p : Fin 3),
      List.Chain' (· > ·) ((hRun n clicks).towers p)) ∧
    (∀ (n : Nat) (clicks : List (Fin 3)),
      towersMultiset (hRun n clicks).towers =
        ((((List.range n).map fun k => k + 1) : List Nat) : Multiset Nat)) ∧
    (∀ (n : Nat) (s : HState) (i sel : Fin 3) (d top : Nat),
      s.selected = some sel → sel ≠ i →
      (s.towers sel).getLast? = some d → (s.towers i).getLast? = some top →
      ¬(d < top) →
      (hClick n s i).towers = s.towers ∧ (hClick n s i).moves = s.moves) := by
  refine ⟨?_, ?_, ?_⟩
  · intro n clicks p
    exact (hRun_invariant n clicks).1 p
  · intro n clicks
    rw [(hRun_invariant n clicks).2.1, descList_eq_reverse_map,
      Multiset.coe_reverse]
  · intro n s i sel d top hsel hne hd htop hnlt
    have hlen : (s.towers i).length ≠ 0 := by
      intro hlen0
      rw [List.length_eq_zero.mp hlen0] at htop
      simp at htop
    have hnot : ¬((s.towers i).length = 0 ∨
        d < ((s.towers i).getLast?.getD 0)) := by
      rw [htop]
      simp only [Option.getD_some]
      push_neg
      exact ⟨hlen, by omega⟩
    unfold hClick
    by_cases hph : s.phase ≠ HPhase.playing
    · rw [if_pos hph]
      exact ⟨rfl, rfl⟩
    · rw [if_neg hph, hsel]
      dsimp only
      rw [if_neg hne, hd]
      dsimp only
      rw [if_neg hnot]
      exact ⟨rfl, rfl⟩

def hanoiSample : HState :=
  { towers := ![[2], [1], []], selected := some 0, moves := 5,
    phase := HPhase.playing }

theorem hanoi_state_invariant_witness :
    (hClick 2 hanoiSample 1).towers = hanoiSample.towers ∧
    (hClick 2 hanoiSample 1).moves = hanoiSample.moves :=
  hanoi_state_invariant.2.2 2 hanoiSample 1 0 2 1 rfl (by decide) rfl rfl
    (by decide)

theorem gnGoCount_eq : gnGoCount = 21 := by
  have h : ⌊(GN_TOTAL_TRIALS : ℚ) * GO_RATIO⌋ = 21 := by
    norm_num [GN_TOTAL_TRIALS, GO_RATIO]
  rw [gnGoCount, h]
  rfl

theorem gnNogoCount_eq : gnNogoCount = 9 := by
  rw [gnNogoCount, gnGoCount_eq]
  rfl

/-- C1: every run of the Go/No-Go trial generator — whatever indices the
shuffle oracle chooses — returns `floor(30 * 0.7) = 21` go trials and
`30 - 21 = 9` no-go trials in a 30-trial sequence; the Fisher-Yates shuffle
preserves the counts of the balanced base list. -/
theorem gonogo_trial_counts (choose : Nat → Nat) :
    ((gnGenerateTrials choose).countP fun t => decide (t.type = TrialType.go)) =
      gnGoCount ∧
    ((gnGenerateTrials choose).countP fun t => decide (t.type = TrialType.nogo)) =
      GN_TOTAL_TRIALS - gnGoCount ∧
    (gnGenerateTrials choose).length = GN_TOTAL_TRIALS := by
  unfold gnGenerateTrials
  rw [fisherYates_countP, fisherYates_countP, fisherYates_length]
  refine ⟨?_, ?_, ?_⟩ <;>
    simp only [gnBaseTrials, gnGoCount_eq, gnNogoCount_eq, GN_TOTAL_TRIALS] <;>
    decide

theorem accuracy_formula_bounds (c t : ℕ) (hct : c ≤ t) (ht : 0 < t) :
    ((c : ℚ) / t) * 100 = 100 * ((c : ℚ) / t) ∧
    0 ≤ ((c : ℚ) / t) * 100 ∧ ((c : ℚ) / t) * 100 ≤ 100 := by
  have ht' : (0 : ℚ) < t := by exact_mod_cast ht
  have h1 : (c : ℚ) / t ≤ 1 := by
    rw [div_le_one ht']
    exact_mod_cast hct
  have h0 : (0 : ℚ) ≤ (c : ℚ) / t := by positivity
  refine ⟨by ring, by positivity, ?_⟩
  calc ((c : ℚ) / t) * 100 ≤ 1 * 100 := by
        apply mul_le_mul_of_nonneg_right h1; norm_num
    _ = 100 := by norm_num

/-- C3: for every non-empty recorded result sequence, the accuracy computed
by the Go/No-Go, Flanker and Stroop scorers equals
`100 × (correct results / total results)` and lies in `[0, 100]`. -/
theorem session_accuracy_in_range :
    (∀ rs : List GNResult, rs ≠ [] →
      gnOverallAccuracy rs =
        100 * (((rs.filter fun r => r.correct).length : ℚ) / (rs.length : ℚ)) ∧
      0 ≤ gnOverallAccuracy rs ∧ gnOverallAccuracy rs ≤ 100) ∧
    (∀ rs : List FlankerResult, rs ≠ [] →
      flankerAccuracy rs =
        100 * (((rs.filter fun r => r.correct).length : ℚ) / (rs.length : ℚ)) ∧
      0 ≤ flankerAccuracy rs ∧ flankerAccuracy rs ≤ 100) ∧
    (∀ rs : List StroopResult, rs ≠ [] →
      stroopAccuracy rs =
        100 * (((rs.filter fun r => r.correct).length : ℚ) / (rs.length : ℚ)) ∧
      0 ≤ stroopAccuracy rs ∧ stroopAccuracy rs ≤ 100) := by
  refine ⟨?_, ?_, ?_⟩ <;>
  · intro rs hrs
    have := accuracy_formula_bounds (rs.filter fun r => r.correct).length rs.length
      (List.length_filter_le _ rs) (List.length_pos.mpr hrs)
    exact this

theorem session_accuracy_in_range_witness :
    gnOverallAccuracy [⟨⟨TrialType.go, GNShape.circle⟩, true, true, none⟩] =
      100 * ((((([⟨⟨TrialType.go, GNShape.circle⟩, true, true, none⟩] :
        List GNResult).filter fun r => r.correct).length : ℚ)) /
        (([⟨⟨TrialType.go, GNShape.circle⟩, true, true, none⟩] :
          List GNResult).length : ℚ)) ∧
    0 ≤ gnOverallAccuracy [⟨⟨TrialType.go, GNShape.circle⟩, true, true, none⟩] ∧
    gnOverallAccuracy [⟨⟨TrialType.go, GNShape.circle⟩, true, true, none⟩] ≤ 100 :=
  session_accuracy_in_range.1 [⟨⟨TrialType.go, GNShape.circle⟩, true, true, none⟩]
    (by decide)

/-- C4: the Task Switching switch cost is the mean response time over switch
trials minus the mean over repeat trials, the Flanker effect is the mean
response time over incongruent trials minus the mean over congruent trials
(whenever both trial classes are non-empty), and each difference can be
negative, zero, or positive. -/
theorem switch_cost_and_flanker_effect :
    (∀ rs : List TSResult, (rs.filter fun r => r.trial.isSwitch) ≠ [] →
      (rs.filter fun r => !r.trial.isSwitch) ≠ [] →
      tsSwitchCost rs =
        mean ((rs.filter fun r => r.trial.isSwitch).map fun r => r.responseTime) -
        mean ((rs.filter fun r => !r.trial.isSwitch).map fun r => r.responseTime)) ∧
    (∀ rs : List FlankerResult,
      (rs.filter fun r => r.trial.type = FlankerType.incongruent) ≠ [] →
      (rs.filter fun r => r.trial.type = FlankerType.congruent) ≠ [] →
      flankerEffect rs =
        mean ((rs.filter fun r => r.trial.type = FlankerType.incongruent).map
          fun r => r.responseTime) -
        mean ((rs.filter fun r => r.trial.type = FlankerType.congruent).map
          fun r => r.responseTime)) ∧
    (∃ rs : List TSResult, tsSwitchCost rs < 0) ∧
    (∃ rs : List TSResult, tsSwitchCost rs = 0) ∧
    (∃ rs : List TSResult, 0 < tsSwitchCost rs) ∧
    (∃ rs : List FlankerResult, flankerEffect rs < 0) ∧
    (∃ rs : List FlankerResult, flankerEffect rs = 0) ∧
    (∃ rs : List FlankerResult, 0 < flankerEffect rs) := by
  refine ⟨?_, ?_, ?_, ?_, ?_, ?_, ?_, ?_⟩
  · intro rs hs hr
    unfold tsSwitchCost tsSwitchRT tsRepeatRT mean
    rw [if_pos (List.length_pos.mpr hs), if_pos (List.length_pos.mpr hr)]
    rw [List.length_map, List.length_map]
  · intro rs hi hc
    unfold flankerEffect flankerIncongruentRT flankerCongruentRT mean
    rw [if_pos (List.length_pos.mpr hi), if_pos (List.length_pos.mpr hc)]
    rw [List.length_map, List.length_map]
  · exact ⟨[⟨⟨2, 'A', TaskType.number, true⟩, "even", true, 100⟩,
      ⟨⟨2, 'A', TaskType.number, false⟩, "even", true, 300⟩],
      by norm_num [tsSwitchCost, tsSwitchRT, tsRepeatRT, List.filter]⟩
  · exact ⟨[⟨⟨2, 'A', TaskType.number, true⟩, "even", true, 200⟩,
      ⟨⟨2, 'A', TaskType.number, false⟩, "even", true, 200⟩],
      by norm_num [tsSwitchCost, tsSwitchRT, tsRepeatRT, List.filter]⟩
  · exact ⟨[⟨⟨2, 'A', TaskType.number, true⟩, "even", true, 300⟩,
      ⟨⟨2, 'A', TaskType.number, false⟩, "even", true, 100⟩],
      by norm_num [tsSwitchCost, tsSwitchRT, tsRepeatRT, List.filter]⟩
  · exact ⟨[⟨⟨"", Direction.left, FlankerType.incongruent⟩, Direction.left, true, 100⟩,
      ⟨⟨"", Direction.left, FlankerType.congruent⟩, Direction.left, true, 300⟩],
      by norm_num [flankerEffect, flankerIncongruentRT, flankerCongruentRT, List.filter,
        show decide (FlankerType.incongruent = FlankerType.congruent) = false from rfl,
        show decide (FlankerType.congruent = FlankerType.congruent) = true from rfl,
        show decide (FlankerType.incongruent = FlankerType.incongruent) = true from rfl,
        show decide (FlankerType.congruent = FlankerType.incongruent) = false from rfl]⟩
  · exact ⟨[⟨⟨"", Direction.left, FlankerType.incongruent⟩, Direction.left, true, 200⟩,
      ⟨⟨"", Direction.left, FlankerType.congruent⟩, Direction.left, true, 200⟩],
      by norm_num [flankerEffect, flankerIncongruentRT, flankerCongruentRT, List.filter,
        show decide (FlankerType.incongruent = FlankerType.congruent) = false from rfl,
        show decide (FlankerType.congruent = FlankerType.congruent) = true from rfl,
        show decide (FlankerType.incongruent = FlankerType.incongruent) = true from rfl,
        show decide (FlankerType.congruent = FlankerType.incongruent) = false from rfl]⟩
  · exact ⟨[⟨⟨"", Direction.left, FlankerType.incongruent⟩, Direction.left, true, 300⟩,
      ⟨⟨"", Direction.left, FlankerType.congruent⟩, Direction.left, true, 100⟩],
      by norm_num [flankerEffect, flankerIncongruentRT, flankerCongruentRT, List.filter,
        show decide (FlankerType.incongruent = FlankerType.congruent) = false from rfl,
        show decide (FlankerType.congruent = FlankerType.congruent) = true from rfl,
        show decide (FlankerType.incongruent = FlankerType.incongruent) = true from rfl,
        show decide (FlankerType.congruent = FlankerType.incongruent) = false from rfl]⟩

theorem switch_cost_and_flanker_effect_witness :
    tsSwitchCost [⟨⟨2, 'A', TaskType.number, true⟩, "even", true, 300⟩,
        ⟨⟨2, 'A', TaskType.number, false⟩, "even", true, 100⟩] =
      mean ((([⟨⟨2, 'A', TaskType.number, true⟩, "even", true, 300⟩,
          ⟨⟨2, 'A', TaskType.number, false⟩, "even", true, 100⟩] :
        List TSResult).filter fun r => r.trial.isSwitch).map fun r => r.responseTime) -
      mean ((([⟨⟨2, 'A', TaskType.number, true⟩, "even", true, 300⟩,
          ⟨⟨2, 'A', TaskType.number, false⟩, "even", true, 100⟩] :
        List TSResult).filter fun r => !r.trial.isSwitch).map fun r => r.responseTime) :=
  switch_cost_and_flanker_effect.1
    [⟨⟨2, 'A', TaskType.number, true⟩, "even", true, 300⟩,
     ⟨⟨2, 'A', TaskType.number, false⟩, "even", true, 100⟩]
    (by decide) (by decide)

/-- C5: a position `i < n` is never a target: the target test requires
`i ≥ n`, so no sequence — in particular no sequence the n-back generator
produces, for any oracle — has a target before position `n`. -/
theorem nback_no_early_target (n : Nat) (branch : Nat → Bool)
    (draw : Nat → Nat → Nat) (i : Nat) (h : i < n) :
    nbIsTarget n (nbGenerateSequence n branch draw) i = false ∧
    ∀ seq : List Char, nbIsTarget n seq i = false := by
  have key : ∀ seq : List Char, nbIsTarget n seq i = false := by
    intro seq
    unfold nbIsTarget
    rw [decide_eq_false (by omega)]
    rfl
  exact ⟨key _, key⟩

theorem nback_no_early_target_witness :
    nbIsTarget 2 (nbGenerateSequence 2 (fun _ => false) (fun _ _ => 0)) 0 = false :=
  (nback_no_early_target 2 (fun _ => false) (fun _ _ => 0) 0 (by decide)).1

theorem ufovAdjust_fold_bounds (outs : List Bool) :
    ∀ prev : ℚ, 50 ≤ prev → prev ≤ 500 →
      50 ≤ outs.foldl ufovAdjust prev ∧ outs.foldl ufovAdjust prev ≤ 500 := by
  induction outs with
  | nil => intro prev h1 h2; exact ⟨h1, h2⟩
  | cons b bs ih =>
    intro prev h1 h2
    apply ih
    · cases b with
      | true => simp only [ufovAdjust, if_pos]; exact le_max_right _ _
      | false =>
        simp only [ufovAdjust, Bool.false_eq_true, if_neg, not_false_iff]
        exact le_min (by linarith) (by norm_num)
    · cases b with
      | true =>
        simp only [ufovAdjust, if_pos]
        exact max_le (by linarith) (by norm_num)
      | false =>
        simp only [ufovAdjust, Bool.false_eq_true, if_neg, not_false_iff]
        exact min_le_right _ _

/-- C6: submitting a UFOV response updates the display time by the up/down
staircase — `max(prev - 50, 50)` after a fully correct trial and
`min(prev + 50, 500)` otherwise — and iterating the staircase from the
initial 500 ms keeps the display time within `[50, 500]`. -/
theorem ufov_staircase (s : UFOVState) (cr : CenterShape) (pr : Nat)
    (trial : UFOVTrial) (hc : s.centerResponse = some cr)
    (hp : s.peripheralResponse = some pr) (ht : s.trial = some trial) :
    (ufovSubmit s).displayTime =
      (if decide (cr = trial.centerShape) && decide (pr = trial.peripheralPosition)
       then max (s.displayTime - 50) 50 else min (s.displayTime + 50) 500) ∧
    (∀ prev : ℚ, ufovAdjust prev true = max (prev - 50) 50 ∧
      ufovAdjust prev false = min (prev + 50) 500) ∧
    (∀ outs : List Bool,
      50 ≤ outs.foldl ufovAdjust UFOV_INITIAL_DISPLAY_TIME ∧
      outs.foldl ufovAdjust UFOV_INITIAL_DISPLAY_TIME ≤ 500) := by
  refine ⟨?_, fun prev => ⟨rfl, rfl⟩, fun outs =>
    ufovAdjust_fold_bounds outs UFOV_INITIAL_DISPLAY_TIME (by norm_num [UFOV_INITIAL_DISPLAY_TIME]) (by norm_num [UFOV_INITIAL_DISPLAY_TIME])⟩
  unfold ufovSubmit
  rw [hc, hp, ht]

/-- C7: when the accepting window is not open — the phase is not the playing
phase, the stimulus is hidden (fixation shown or trial missing), or a
response was already recorded — the Go/No-Go, Stroop and Flanker response
handlers leave the entire game state unchanged. -/
theorem response_ignored_outside_window :
    (∀ (s : GNState) (now : ℚ),
      ¬(s.phase = GNPhase.playing ∧ s.showStimulus = true ∧ s.responded = false) →
      gnHandleResponse now s = s) ∧
    (∀ (s : StroopState) (userSaysMatch : Bool) (now : ℚ),
      ¬(s.phase = StroopPhase.playing ∧ s.trial ≠ none) →
      stroopHandleResponse userSaysMatch now s = s) ∧
    (∀ (s : FlankerState) (response : Direction) (now : ℚ),
      ¬(s.phase = FlankerPhase.playing ∧ s.showFixation = false ∧
        s.trials[s.currentTrial]? ≠ none) →
      flankerHandleResponse response now s = s) := by
  refine ⟨?_, ?_, ?_⟩
  · intro s now h
    unfold gnHandleResponse
    have hcond : s.phase ≠ GNPhase.playing ∨ s.showStimulus = false ∨
        s.responded = true := by
      by_contra hc
      push_neg at hc
      obtain ⟨h1, h2, h3⟩ := hc
      exact h ⟨h1, by simpa using h2, by simpa using h3⟩
    rw [if_pos hcond]
  · intro s userSaysMatch now h
    unfold stroopHandleResponse
    cases ht : s.trial with
    | none => rfl
    | some trial =>
      have hp : s.phase ≠ StroopPhase.playing := by
        intro hphase
        exact h ⟨hphase, by rw [ht]; exact Option.some_ne_none _⟩
      dsimp only
      rw [if_pos hp]
  · intro s response now h
    unfold flankerHandleResponse
    by_cases h1 : s.phase ≠ FlankerPhase.playing ∨ s.showFixation = true
    · rw [if_pos h1]
    · rw [if_neg h1]
      push_neg at h1
      obtain ⟨hp, hf⟩ := h1
      have hnone : s.trials[s.currentTrial]? = none := by
        by_contra hn
        exact h ⟨by simpa using hp, by simpa using hf, hn⟩
      rw [hnone]

def stroopSample : StroopState :=
  ⟨StroopPhase.instructions, SpeedLevel.normal, 3, 0, none, 0, 0, [], none⟩

def flankerSample : FlankerState :=
  ⟨FlankerPhase.instructions, 3, [], 0, 0, [], none, false⟩

theorem response_ignored_outside_window_witness :
    gnHandleResponse 0 gnInit = gnInit ∧
    stroopHandleResponse true 0 stroopSample = stroopSample ∧
    flankerHandleResponse Direction.left 0 flankerSample = flankerSample :=
  ⟨response_ignored_outside_window.1 gnInit 0 (by decide),
   response_ignored_outside_window.2.1 stroopSample true 0 (by decide),
   response_ignored_outside_window.2.2 flankerSample Direction.left 0 (by decide)⟩

/-- The per-result invariant of a Go/No-Go session. -/
def gnResultOK (r : GNResult) : Prop :=
  (r.responseTime = none ↔ r.responded = false) ∧
  (r.responded = true → (r.correct = true ↔ r.trial.type = TrialType.go)) ∧
  (r.responded = false → (r.correct = true ↔ r.trial.type = TrialType.nogo))

theorem gnStep_preserves_resultOK (s : GNState) (e : GNEvent)
    (h : ∀ r ∈ s.results, gnResultOK r) :
    ∀ r ∈ (gnStep s e).results, gnResultOK r := by
  cases e with
  | start choose => intro r hr; exact h r hr
  | countdownTick =>
    intro r hr
    simp only [gnStep, gnCountdownTick] at hr
    split at hr <;> exact h r hr
  | beginPlaying =>
    intro r hr
    simp only [gnStep, gnBeginPlaying] at hr
    split at hr
    · simp at hr
    · exact h r hr
  | fixationDone now =>
    intro r hr
    simp only [gnStep, gnFixationDone] at hr
    split at hr <;> exact h r hr
  | stimulusTimeout =>
    intro r hr
    simp only [gnStep, gnStimulusTimeout] at hr
    split at hr
    · split at hr
      · simp only [List.mem_append, List.mem_singleton] at hr
        rcases hr with hr | rfl
        · exact h r hr
        · simp [gnResultOK]
      · exact h r hr
    · exact h r hr
  | respond now =>
    intro r hr
    simp only [gnStep, gnHandleResponse] at hr
    split at hr
    · exact h r hr
    · split at hr
      · simp only [List.mem_append, List.mem_singleton] at hr
        rcases hr with hr | rfl
        · exact h r hr
        · simp [gnResultOK]
      · exact h r hr
  | feedbackDone =>
    intro r hr
    simp only [gnStep, gnFeedbackDone] at hr
    split at hr
    · split at hr <;> exact h r hr
    · exact h r hr

theorem gnRun_aux (events : List GNEvent) :
    ∀ s : GNState, (∀ r ∈ s.results, gnResultOK r) →
      ∀ r ∈ (events.foldl gnStep s).results, gnResultOK r := by
  induction events with
  | nil => intro s h; exact h
  | cons e es ih =>
    intro s h
    exact ih (gnStep s e) (gnStep_preserves_resultOK s e h)

/-- C10: every trial result a Go/No-Go session records has a response time
exactly when a response was made; a response is correct exactly on a go
trial, and a timeout is correct exactly on a no-go trial. -/
theorem gonogo_result_invariant (events : List GNEvent) (r : GNResult)
    (hr : r ∈ (gnRun events).results) :
    (r.responseTime = none ↔ r.responded = false) ∧
    (r.responded = true → (r.correct = true ↔ r.trial.type = TrialType.go)) ∧
    (r.responded = false → (r.correct = true ↔ r.trial.type = TrialType.nogo)) :=
  gnRun_aux events gnInit (by intro r hr; simp [gnInit] at hr) r hr

theorem gonogo_result_invariant_witness :
    ((⟨⟨TrialType.go, GNShape.circle⟩, false, false, none⟩ : GNResult).responseTime =
        none ↔
      (⟨⟨TrialType.go, GNShape.circle⟩, false, false, none⟩ : GNResult).responded =
        false) ∧
    ((⟨⟨TrialType.go, GNShape.circle⟩, false, false, none⟩ : GNResult).responded =
        true →
      ((⟨⟨TrialType.go, GNShape.circle⟩, false, false, none⟩ : GNResult).correct =
          true ↔
        (⟨⟨TrialType.go, GNShape.circle⟩, false, false, none⟩ :
          GNResult).trial.type = TrialType.go)) ∧
    ((⟨⟨TrialType.go, GNShape.circle⟩, false, false, none⟩ : GNResult).responded =
        false →
      ((⟨⟨TrialType.go, GNShape.circle⟩, false, false, none⟩ : GNResult).correct =
          true ↔
        (⟨⟨TrialType.go, GNShape.circle⟩, false, false, none⟩ :
          GNResult).trial.type = TrialType.nogo)) :=
  gonogo_result_invariant
    [GNEvent.start (fun i => i), GNEvent.countdownTick, GNEvent.countdownTick,
     GNEvent.countdownTick, GNEvent.beginPlaying, GNEvent.fixationDone 5,
     GNEvent.stimulusTimeout]
    ⟨⟨TrialType.go, GNShape.circle⟩, false, false, none⟩
    (by
      have h1 : gnGenerateTrials (fun i => i) = gnBaseTrials := by
        unfold gnGenerateTrials fisherYates
        exact fyAux_id _ _
      have h2 : gnBaseTrials =
          List.replicate 21 ⟨TrialType.go, GNShape.circle⟩ ++
            List.replicate 9 ⟨TrialType.nogo, GNShape.square⟩ := by
        rw [gnBaseTrials, gnGoCount_eq, gnNogoCount_eq]
      have h3 : gnStep gnInit (GNEvent.start (fun i => i)) =
          { phase := GNPhase.countdown, countdown := 3,
            trials := List.replicate 21 ⟨TrialType.go, GNShape.circle⟩ ++
              List.replicate 9 ⟨TrialType.nogo, GNShape.square⟩,
            currentTrial := 0, trialStart := 0, results := [], feedback := none,
            showFixation := false, showStimulus := false, responded := false } := by
        show gnStartGame (fun i => i) gnInit = _
        rw [gnStartGame, h1, h2]
        rfl
      rw [gnRun, List.foldl_cons, h3]
      decide)

/-- C8 counterexample: the route table of `App` matches no view at all for a
malformed game path — nothing is rendered, not a "not found" view. -/
theorem unknown_route_no_view : matchRoute "/games/unknown-game" = none := by
  decide

/-- C8 (amended): a navigation path outside the registered routes renders
nothing — the router yields no view; the "Game Not Found" fallback lives in
the unreferenced `GamePage` component, which shows it exactly for game ids
missing from the catalog. -/
theorem unmatched_route_renders_nothing :
    (∀ path : String, path ∉ appRoutes.map Prod.fst → matchRoute path = none) ∧
    (∀ gameId : String, gameId ∉ gameIds →
      gamePage gameId = GamePageView.notFound) := by
  constructor
  · intro path hp
    unfold matchRoute
    rw [List.find?_eq_none.mpr]
    · rfl
    · intro route hroute hbeq
      rw [beq_iff_eq] at hbeq
      exact hp (hbeq ▸ List.mem_map_of_mem Prod.fst hroute)
  · intro gameId hg
    unfold gamePage
    rw [if_neg]
    simpa using hg

theorem unmatched_route_renders_nothing_witness :
    matchRoute "/games/not-a-game" = none ∧
    gamePage "not-a-game" = GamePageView.notFound :=
  ⟨unmatched_route_renders_nothing.1 "/games/not-a-game" (by decide),
   unmatched_route_renders_nothing.2 "not-a-game" (by decide)⟩

def ufovSample : UFOVState :=
  ⟨UFOVPhase.response, 0, 0, some ⟨CenterShape.car, 3, 500⟩, [],
    some CenterShape.car, some 3, none, 500⟩

theorem ufov_staircase_witness :
    (ufovSubmit ufovSample).displayTime =
      (if decide (CenterShape.car = CenterShape.car) && decide (3 = 3)
       then max (ufovSample.displayTime - 50) 50
       else min (ufovSample.displayTime + 50) 500) :=
  (ufov_staircase ufovSample CenterShape.car 3 ⟨CenterShape.car, 3, 500⟩
    rfl rfl rfl).1

end BrainGames
